import Mathlib

/-!
Shallow embedding of the isometric crate core (src/wall.rs and src/level.rs):
the tile grid with per-tile elevation, the shared-edge wall arrays, the
move-legality predicate, bulk wall generation (borders, cliffs) and the
bounded visibility query.  Rust `Vec` becomes `List`, `usize` becomes `Nat`,
`isize` becomes `Int`, `f32` elevations become `ℚ` (exact values; none of the
verified operations rounds), fallible `Vec` indexing in the visibility closure
becomes `Option`.
-/

namespace Isometric

/-- Wall positions (src/wall.rs): the edge of a tile a wall sits on. -/
inductive WallPosition where
  | Left
  | Right
  | Top
  | Bottom
deriving DecidableEq

/-- A level (src/level.rs): width, depth, dense elevation array, dense tile
payload array, and the two shared-edge wall arrays (`walls_h` for horizontal
edges separating tiles along y, `walls_v` for vertical edges separating tiles
along x). -/
structure Level (FT WT : Type) where
  width : Nat
  depth : Nat
  floor : List ℚ
  floor_data : List FT
  walls_h : List (Option WT)
  walls_v : List (Option WT)

namespace Level

variable {FT WT : Type}

/-- Helper that returns the index from x and y coordinates (src/level.rs `get_index`). -/
def get_index (lvl : Level FT WT) (x y : Nat) : Nat :=
  y * lvl.width + x

/-- Constructor (src/level.rs `new`): all tiles at `default_z`, all edges
wall-free, all payloads at the default value. -/
def new (width depth : Nat) (default_z : ℚ) [Inhabited FT] : Level FT WT :=
  { width := width
    depth := depth
    floor := List.replicate (width * depth) default_z
    walls_h := List.replicate ((depth + 1) * width) none
    walls_v := List.replicate ((width + 1) * depth) none
    floor_data := List.replicate (width * depth) default }

/-- Elevation of a tile (src/level.rs `z`).  In the source, out-of-bounds
coordinates are a precondition violation (`debug_assert`); every use below is
in bounds. -/
def z (lvl : Level FT WT) (x y : Nat) : ℚ :=
  lvl.floor.getD (lvl.get_index x y) 0

/-- Set the elevation of a tile (src/level.rs `set_z`). -/
def set_z (lvl : Level FT WT) (x y : Nat) (v : ℚ) : Level FT WT :=
  { lvl with floor := lvl.floor.set (lvl.get_index x y) v }

/-- The index into `walls_h` respectively `walls_v` used by `wall` and
`set_wall` (the four match arms of src/level.rs lines 134-139 and 145-150). -/
def wallIndex (width depth x y : Nat) : WallPosition → Nat
  | .Bottom => x * (depth + 1) + y
  | .Left => y * (width + 1) + x
  | .Right => y * (width + 1) + x + 1
  | .Top => x * (depth + 1) + y + 1

/-- Wall query (src/level.rs `wall`): reads the shared edge slot.  As for `z`,
out-of-bounds coordinates are a precondition violation in the source; the
theorems below only use in-bounds coordinates, where claim C10 shows the
computed index is inside the backing array. -/
def wall (lvl : Level FT WT) (x y : Nat) (p : WallPosition) : Option WT :=
  match p with
  | .Bottom => lvl.walls_h.getD (wallIndex lvl.width lvl.depth x y .Bottom) none
  | .Left => lvl.walls_v.getD (wallIndex lvl.width lvl.depth x y .Left) none
  | .Right => lvl.walls_v.getD (wallIndex lvl.width lvl.depth x y .Right) none
  | .Top => lvl.walls_h.getD (wallIndex lvl.width lvl.depth x y .Top) none

/-- Wall update (src/level.rs `set_wall`): writes the shared edge slot. -/
def set_wall (lvl : Level FT WT) (x y : Nat) (p : WallPosition) (data : Option WT) :
    Level FT WT :=
  match p with
  | .Bottom => { lvl with walls_h := lvl.walls_h.set (wallIndex lvl.width lvl.depth x y .Bottom) data }
  | .Left => { lvl with walls_v := lvl.walls_v.set (wallIndex lvl.width lvl.depth x y .Left) data }
  | .Right => { lvl with walls_v := lvl.walls_v.set (wallIndex lvl.width lvl.depth x y .Right) data }
  | .Top => { lvl with walls_h := lvl.walls_h.set (wallIndex lvl.width lvl.depth x y .Top) data }

/-- Well-formedness: the three dense arrays have the lengths the constructor
allocates (they are never resized). -/
def WF (lvl : Level FT WT) : Prop :=
  lvl.floor.length = lvl.width * lvl.depth ∧
  lvl.walls_h.length = (lvl.depth + 1) * lvl.width ∧
  lvl.walls_v.length = (lvl.width + 1) * lvl.depth

instance (lvl : Level FT WT) : Decidable lvl.WF := by
  unfold WF; infer_instance

/-- Body of the first `add_border_walls` loop (src/level.rs lines 160-161)
for loop index x: sets the Bottom edge at y = 0 and the Top edge at
y = depth - 1. -/
def border_step_h (data : WT) (depth : Nat) (l : Level FT WT) (x : Nat) : Level FT WT :=
  (l.set_wall x 0 .Bottom (some data)).set_wall x (depth - 1) .Top (some data)

/-- Body of the second `add_border_walls` loop (src/level.rs lines 164-165)
for loop index y: sets the Left edge at x = 0 and the Right edge at
x = width - 1. -/
def border_step_v (data : WT) (width : Nat) (l : Level FT WT) (y : Nat) : Level FT WT :=
  (l.set_wall 0 y .Left (some data)).set_wall (width - 1) y .Right (some data)

/-- Border wall generation (src/level.rs `add_border_walls`): first loop walks
x and sets the Bottom edge at y = 0 and the Top edge at y = depth - 1, second
loop walks y and sets the Left edge at x = 0 and the Right edge at
x = width - 1. -/
def add_border_walls (lvl : Level FT WT) (data : WT) : Level FT WT :=
  let depth := lvl.depth
  let width := lvl.width
  let l1 := (List.range lvl.width).foldl (border_step_h data depth) lvl
  (List.range lvl.depth).foldl (border_step_v data width) l1

/-- Body of the cliff wall loops (src/level.rs `add_cliff_walls` lines
174-183) for one pair of loop indices x, y: reads the three elevations from
the current level, then conditionally sets the Top and Right walls of (x, y). -/
def cliff_step (threshold : ℚ) (data : WT) (x : Nat) (l : Level FT WT) (y : Nat) :
    Level FT WT :=
  let zc := l.z x y
  let z_right := l.z (x + 1) y
  let z_top := l.z x (y + 1)
  let l1 := if |zc - z_top| ≥ threshold then l.set_wall x y .Top (some data) else l
  if |zc - z_right| ≥ threshold then l1.set_wall x y .Right (some data) else l1

/-- Cliff wall generation (src/level.rs `add_cliff_walls`): nested loops over
x in 0..(width - 1) and y in 0..(depth - 1), body `cliff_step`. -/
def add_cliff_walls (lvl : Level FT WT) (threshold : ℚ) (data : WT) : Level FT WT :=
  (List.range (lvl.width - 1)).foldl
    (fun lx x => (List.range (lvl.depth - 1)).foldl (cliff_step threshold data x) lx) lvl

/-- Move legality (src/level.rs `is_move_possible`).  The recursion of the
source (the two L-shaped sub-paths of a diagonal move) is total because the
recursive calls are on orthogonally adjacent pairs. -/
def is_move_possible (lvl : Level FT WT) (start_pos end_pos : Nat × Nat) : Bool :=
  if start_pos = end_pos then
    true
  else if end_pos.1 ≥ lvl.width ∨ end_pos.2 ≥ lvl.depth then
    false
  else
    let dx : Int := (end_pos.1 : Int) - (start_pos.1 : Int)
    let dy : Int := (end_pos.2 : Int) - (start_pos.2 : Int)
    if dx.natAbs > 1 ∨ dy.natAbs > 1 then
      false
    else if dx.natAbs + dy.natAbs = 2 then
      let intermediate_x := ((start_pos.1 : Int) + dx).toNat
      let intermediate := (intermediate_x, start_pos.2)
      if is_move_possible lvl start_pos intermediate
          && is_move_possible lvl intermediate end_pos then
        true
      else
        let intermediate_y := ((start_pos.2 : Int) + dy).toNat
        let intermediate2 := (start_pos.1, intermediate_y)
        is_move_possible lvl start_pos intermediate2
          && is_move_possible lvl intermediate2 end_pos
    else
      if dx = 1 ∧ dy = 0 then (lvl.wall start_pos.1 start_pos.2 .Right).isNone
      else if dx = -1 ∧ dy = 0 then (lvl.wall start_pos.1 start_pos.2 .Left).isNone
      else if dx = 0 ∧ dy = 1 then (lvl.wall start_pos.1 start_pos.2 .Top).isNone
      else if dx = 0 ∧ dy = -1 then (lvl.wall start_pos.1 start_pos.2 .Bottom).isNone
      else false
termination_by
  ((end_pos.1 : Int) - (start_pos.1 : Int)).natAbs + ((end_pos.2 : Int) - (start_pos.2 : Int)).natAbs
decreasing_by
  all_goals simp_wf
  all_goals omega

/-- The direction tested by the single-step arm of `is_move_possible`
(the match on (dx, dy), src/level.rs lines 227-233). -/
def moveDir (dx dy : Int) : WallPosition :=
  if dx = 1 ∧ dy = 0 then .Right
  else if dx = -1 ∧ dy = 0 then .Left
  else if dx = 0 ∧ dy = 1 then .Top
  else .Bottom

/-- The orthogonal wall rule (spec rule 5): a single orthogonal step is legal
iff the wall at the start tile in the direction of the move is absent. -/
def orthoWallFree (lvl : Level FT WT) (a b : Nat × Nat) : Bool :=
  (lvl.wall a.1 a.2 (moveDir ((b.1 : Int) - (a.1 : Int)) ((b.2 : Int) - (a.2 : Int)))).isNone

/-- The initial visibility matrix of `visible_from` (src/level.rs lines
278-283): 2*radius+1 rows of 2*radius+1 `false` entries, then the center cell
at index [radius][radius] is set to `true`. -/
def initVisibility (radius : Nat) : List (List Bool) :=
  (List.replicate (2 * radius + 1) (List.replicate (2 * radius + 1) false)).set radius
    ((List.replicate (2 * radius + 1) false).set radius true)

/-- One ray-march mark of `visible_from` (src/level.rs lines 317-325): the
candidate matrix indices i, j are checked against the matrix range, the mark
is discarded when either is outside [0, 2*radius], and otherwise the cell is
set to `true`. -/
def markCell (radius : Nat) (m : List (List Bool)) (ij : Int × Int) : List (List Bool) :=
  if ij.1 < 0 ∨ 2 * (radius : Int) + 1 ≤ ij.1 ∨ ij.2 < 0 ∨ 2 * (radius : Int) + 1 ≤ ij.2 then
    m
  else
    m.set ij.1.toNat ((m.getD ij.1.toNat []).set ij.2.toNat true)

/-- The matrix computed by `visible_from` (src/level.rs lines 277-335), with
the floating-point ray trajectories abstracted: the rays produce some sequence
of candidate cell marks (in the source, one per accepted `is_move_possible`
step along each of the 10*radius rays), and every mark goes through the range
guard of `markCell`.  All theorems about it therefore hold for every possible
mark sequence, in particular for the one the f32 trigonometry produces. -/
def visibleFromMarked (radius : Nat) (marks : List (Int × Int)) : List (List Bool) :=
  marks.foldl (markCell radius) (initVisibility radius)

/-- The bounded predicate returned by `visibility` (src/level.rs lines
254-269), reading the captured matrix at a query coordinate (x, y).  The
bounds are computed exactly as in the source; note the second component of
the upper bound compares against `width - 1` but clips to `depth - 1`.  The
`Vec` indexing of the source panics when an index is out of range; that is
modelled by `none`. -/
def visibilityQuery (width depth : Nat) (matrix : List (List Bool))
    (pos : Nat × Nat) (radius : Nat) (x y : Nat) : Option Bool :=
  let upper_bound := (if pos.1 + radius ≥ width - 1 then width - 1 else pos.1 + radius,
                      if pos.2 + radius ≥ width - 1 then depth - 1 else pos.2 + radius)
  let lower_bound := (if pos.1 > radius then pos.1 - radius else 0,
                      if pos.2 > radius then pos.2 - radius else 0)
  if x < lower_bound.1 ∨ x > upper_bound.1 ∨ y < lower_bound.2 ∨ y > upper_bound.2 then
    some false
  else
    match matrix[x + radius - pos.1]? with
    | none => none
    | some row => row[y + radius - pos.2]?

/-- The function `visibility` (src/level.rs lines 254-269): the closure captures the matrix
`visible_from(pos, radius)` (here `visibleFromMarked radius marks` for the
abstracted mark sequence) and the level dimensions. -/
def visibility_model (lvl : Level FT WT) (pos : Nat × Nat) (radius : Nat)
    (marks : List (Int × Int)) (x y : Nat) : Option Bool :=
  visibilityQuery lvl.width lvl.depth (visibleFromMarked radius marks) pos radius x y

/-- Concrete 2 by 2 level with elevation 10 at tile (1, 1): the cliff-wall
counterexample level. -/
def cliffLvl : Level Unit Unit :=
  (Level.new 2 2 0).set_z 1 1 10

/-! Basic facts about `set_wall`: it never touches the dimensions, the floor
or the payload array, and it touches only the wall array of its orientation. -/

variable {FT WT : Type}

@[simp] theorem set_wall_width (lvl : Level FT WT) (x y : Nat) (p : WallPosition) (d : Option WT) :
    (lvl.set_wall x y p d).width = lvl.width := by
  cases p <;> rfl

@[simp] theorem set_wall_depth (lvl : Level FT WT) (x y : Nat) (p : WallPosition) (d : Option WT) :
    (lvl.set_wall x y p d).depth = lvl.depth := by
  cases p <;> rfl

@[simp] theorem set_wall_floor (lvl : Level FT WT) (x y : Nat) (p : WallPosition) (d : Option WT) :
    (lvl.set_wall x y p d).floor = lvl.floor := by
  cases p <;> rfl

@[simp] theorem set_wall_z (lvl : Level FT WT) (x y : Nat) (p : WallPosition) (d : Option WT)
    (a b : Nat) : (lvl.set_wall x y p d).z a b = lvl.z a b := by
  cases p <;> rfl

theorem set_wall_walls_h_Left (lvl : Level FT WT) (x y : Nat) (d : Option WT) :
    (lvl.set_wall x y .Left d).walls_h = lvl.walls_h := rfl

theorem set_wall_walls_h_Right (lvl : Level FT WT) (x y : Nat) (d : Option WT) :
    (lvl.set_wall x y .Right d).walls_h = lvl.walls_h := rfl

theorem set_wall_walls_v_Top (lvl : Level FT WT) (x y : Nat) (d : Option WT) :
    (lvl.set_wall x y .Top d).walls_v = lvl.walls_v := rfl

theorem set_wall_walls_v_Bottom (lvl : Level FT WT) (x y : Nat) (d : Option WT) :
    (lvl.set_wall x y .Bottom d).walls_v = lvl.walls_v := rfl

theorem set_wall_walls_h_Top (lvl : Level FT WT) (x y : Nat) (d : Option WT) :
    (lvl.set_wall x y .Top d).walls_h
      = lvl.walls_h.set (wallIndex lvl.width lvl.depth x y .Top) d := rfl

theorem set_wall_walls_h_Bottom (lvl : Level FT WT) (x y : Nat) (d : Option WT) :
    (lvl.set_wall x y .Bottom d).walls_h
      = lvl.walls_h.set (wallIndex lvl.width lvl.depth x y .Bottom) d := rfl

theorem set_wall_walls_v_Left (lvl : Level FT WT) (x y : Nat) (d : Option WT) :
    (lvl.set_wall x y .Left d).walls_v
      = lvl.walls_v.set (wallIndex lvl.width lvl.depth x y .Left) d := rfl

theorem set_wall_walls_v_Right (lvl : Level FT WT) (x y : Nat) (d : Option WT) :
    (lvl.set_wall x y .Right d).walls_v
      = lvl.walls_v.set (wallIndex lvl.width lvl.depth x y .Right) d := rfl

@[simp] theorem set_wall_walls_h_length (lvl : Level FT WT) (x y : Nat) (p : WallPosition)
    (d : Option WT) : (lvl.set_wall x y p d).walls_h.length = lvl.walls_h.length := by
  cases p <;> simp [set_wall]

@[simp] theorem set_wall_walls_v_length (lvl : Level FT WT) (x y : Nat) (p : WallPosition)
    (d : Option WT) : (lvl.set_wall x y p d).walls_v.length = lvl.walls_v.length := by
  cases p <;> simp [set_wall]

/-! Index arithmetic for the shared-edge arrays. -/

theorem hIndex_lt {width depth x y : Nat} (hx : x < width) (hy : y ≤ depth) :
    x * (depth + 1) + y < (depth + 1) * width := by
  have h1 : x * (depth + 1) + y < (x + 1) * (depth + 1) := by ring_nf; omega
  have h2 : (x + 1) * (depth + 1) ≤ width * (depth + 1) :=
    Nat.mul_le_mul_right _ hx
  have h3 : width * (depth + 1) = (depth + 1) * width := Nat.mul_comm _ _
  omega

theorem vIndex_lt {width depth x y : Nat} (hy : y < depth) (hx : x ≤ width) :
    y * (width + 1) + x < (width + 1) * depth := by
  have h1 : y * (width + 1) + x < (y + 1) * (width + 1) := by ring_nf; omega
  have h2 : (y + 1) * (width + 1) ≤ depth * (width + 1) :=
    Nat.mul_le_mul_right _ hy
  have h3 : depth * (width + 1) = (width + 1) * depth := Nat.mul_comm _ _
  omega

/-- Uniqueness of quotient and remainder: used to tell distinct edge slots apart. -/
theorem mul_add_inj {m a b r s : Nat} (hr : r < m) (hs : s < m)
    (h : a * m + r = b * m + s) : a = b ∧ r = s := by
  have hm : 0 < m := by omega
  have ha : (a * m + r) / m = a := by
    rw [mul_comm a m, Nat.mul_add_div hm, Nat.div_eq_of_lt hr, Nat.add_zero]
  have hb : (b * m + s) / m = b := by
    rw [mul_comm b m, Nat.mul_add_div hm, Nat.div_eq_of_lt hs, Nat.add_zero]
  have hra : (a * m + r) % m = r := by
    rw [mul_comm a m, Nat.mul_add_mod, Nat.mod_eq_of_lt hr]
  have hrb : (b * m + s) % m = s := by
    rw [mul_comm b m, Nat.mul_add_mod, Nat.mod_eq_of_lt hs]
  constructor
  · rw [← ha, ← hb, h]
  · rw [← hra, ← hrb, h]

/-! `getD` view of `List.set`. -/

theorem getD_set_self {α : Type} (l : List α) (i : Nat) (a d : α) (h : i < l.length) :
    (l.set i a).getD i d = a := by
  rw [List.getD_eq_getElem?_getD, List.getElem?_set_eq_of_lt a h]
  rfl

theorem getD_set_ne {α : Type} (l : List α) (i j : Nat) (a d : α) (h : i ≠ j) :
    (l.set i a).getD j d = l.getD j d := by
  rw [List.getD_eq_getElem?_getD, List.getElem?_set_ne h, ← List.getD_eq_getElem?_getD]

theorem getD_replicate_none {n j : Nat} :
    (List.replicate n (none : Option WT)).getD j none = none := by
  rw [List.getD_eq_getElem?_getD, List.getElem?_replicate]
  split <;> rfl

/-! Edge aliasing: the index formulas of `wall` resolve the Right edge of
(x, y) and the Left edge of (x+1, y) to the same `walls_v` slot, and the Top
edge of (x, y) and the Bottom edge of (x, y+1) to the same `walls_h` slot. -/

theorem wall_right_eq_left (lvl : Level FT WT) (x y : Nat) :
    lvl.wall x y .Right = lvl.wall (x + 1) y .Left := rfl

theorem wall_top_eq_bottom (lvl : Level FT WT) (x y : Nat) :
    lvl.wall x y .Top = lvl.wall x (y + 1) .Bottom := rfl

theorem wallIndex_left_succ (width depth x y : Nat) :
    wallIndex width depth (x + 1) y .Left = wallIndex width depth x y .Right := rfl

theorem wallIndex_bottom_succ (width depth x y : Nat) :
    wallIndex width depth x (y + 1) .Bottom = wallIndex width depth x y .Top := rfl

/-- Claim C2: for in-bounds coordinates, `wall (x, y, Right)` and
`wall (x+1, y, Left)` agree, `wall (x, y, Top)` and `wall (x, y+1, Bottom)`
agree, and a `set_wall` through either aliased address is observed through the
other address. -/
theorem claim_C2 (lvl : Level FT WT) (hWF : lvl.WF) (x y : Nat) (d : WT) :
    (x + 1 < lvl.width → y < lvl.depth →
      lvl.wall x y .Right = lvl.wall (x + 1) y .Left ∧
      (lvl.set_wall x y .Right (some d)).wall (x + 1) y .Left = some d ∧
      (lvl.set_wall (x + 1) y .Left (some d)).wall x y .Right = some d) ∧
    (y + 1 < lvl.depth → x < lvl.width →
      lvl.wall x y .Top = lvl.wall x (y + 1) .Bottom ∧
      (lvl.set_wall x y .Top (some d)).wall x (y + 1) .Bottom = some d ∧
      (lvl.set_wall x (y + 1) .Bottom (some d)).wall x y .Top = some d) := by
  obtain ⟨hf, hh, hv⟩ := hWF
  constructor
  · intro hx hy
    have hlt : wallIndex lvl.width lvl.depth x y .Right < lvl.walls_v.length := by
      have h1 := @vIndex_lt lvl.width lvl.depth (x + 1) y hy (by omega)
      rw [hv]
      simp only [wallIndex]
      omega
    refine ⟨wall_right_eq_left lvl x y, ?_, ?_⟩
    · show ((lvl.set_wall x y .Right (some d)).walls_v).getD
        (wallIndex (lvl.set_wall x y .Right (some d)).width
          (lvl.set_wall x y .Right (some d)).depth (x + 1) y .Left) none = some d
      rw [set_wall_width, set_wall_depth, set_wall_walls_v_Right, wallIndex_left_succ]
      exact getD_set_self _ _ _ _ hlt
    · show ((lvl.set_wall (x + 1) y .Left (some d)).walls_v).getD
        (wallIndex (lvl.set_wall (x + 1) y .Left (some d)).width
          (lvl.set_wall (x + 1) y .Left (some d)).depth x y .Right) none = some d
      rw [set_wall_width, set_wall_depth, set_wall_walls_v_Left, wallIndex_left_succ]
      exact getD_set_self _ _ _ _ hlt
  · intro hy hx
    have hlt : wallIndex lvl.width lvl.depth x y .Top < lvl.walls_h.length := by
      have h1 := @hIndex_lt lvl.width lvl.depth x (y + 1) hx (by omega)
      rw [hh]
      simp only [wallIndex]
      omega
    refine ⟨wall_top_eq_bottom lvl x y, ?_, ?_⟩
    · show ((lvl.set_wall x y .Top (some d)).walls_h).getD
        (wallIndex (lvl.set_wall x y .Top (some d)).width
          (lvl.set_wall x y .Top (some d)).depth x (y + 1) .Bottom) none = some d
      rw [set_wall_width, set_wall_depth, set_wall_walls_h_Top, wallIndex_bottom_succ]
      exact getD_set_self _ _ _ _ hlt
    · show ((lvl.set_wall x (y + 1) .Bottom (some d)).walls_h).getD
        (wallIndex (lvl.set_wall x (y + 1) .Bottom (some d)).width
          (lvl.set_wall x (y + 1) .Bottom (some d)).depth x y .Top) none = some d
      rw [set_wall_width, set_wall_depth, set_wall_walls_h_Bottom, wallIndex_bottom_succ]
      exact getD_set_self _ _ _ _ hlt

/-- Witness for claim C2 at a concrete level. -/
theorem claim_C2_witness :
    ((Level.new 5 4 0 : Level Unit Unit).wall 1 2 .Right
        = (Level.new 5 4 0 : Level Unit Unit).wall 2 2 .Left) ∧
    (((Level.new 5 4 0 : Level Unit Unit).set_wall 1 2 .Right (some ())).wall 2 2 .Left
        = some ()) ∧
    (((Level.new 5 4 0 : Level Unit Unit).set_wall 1 2 .Top (some ())).wall 1 3 .Bottom
        = some ()) := by
  have h := claim_C2 (Level.new 5 4 0 : Level Unit Unit) (by decide) 1 2 ()
  exact ⟨(h.1 (by decide) (by decide)).1, (h.1 (by decide) (by decide)).2.1,
    (h.2 (by decide) (by decide)).2.1⟩

/-- Claim C10: under the precondition x < width and y < depth, all four edge
indices computed by `wall` and `set_wall` are strictly inside the backing
array the constructor allocates. -/
theorem claim_C10 (width depth x y : Nat) (z0 : ℚ) (hx : x < width) (hy : y < depth) :
    wallIndex width depth x y .Bottom < (Level.new width depth z0 : Level Unit Unit).walls_h.length ∧
    wallIndex width depth x y .Top < (Level.new width depth z0 : Level Unit Unit).walls_h.length ∧
    wallIndex width depth x y .Left < (Level.new width depth z0 : Level Unit Unit).walls_v.length ∧
    wallIndex width depth x y .Right < (Level.new width depth z0 : Level Unit Unit).walls_v.length := by
  have hlh : (Level.new width depth z0 : Level Unit Unit).walls_h.length = (depth + 1) * width := by
    simp [Level.new]
  have hlv : (Level.new width depth z0 : Level Unit Unit).walls_v.length = (width + 1) * depth := by
    simp [Level.new]
  rw [hlh, hlv]
  refine ⟨hIndex_lt hx (by omega), ?_, vIndex_lt hy (by omega), ?_⟩
  · show x * (depth + 1) + (y + 1) < (depth + 1) * width
    exact hIndex_lt hx (by omega)
  · show y * (width + 1) + (x + 1) < (width + 1) * depth
    exact vIndex_lt hy (by omega)

/-- Witness for claim C10 at concrete dimensions and coordinates. -/
theorem claim_C10_witness :
    wallIndex 3 4 2 3 .Bottom < (Level.new 3 4 0 : Level Unit Unit).walls_h.length ∧
    wallIndex 3 4 2 3 .Top < (Level.new 3 4 0 : Level Unit Unit).walls_h.length ∧
    wallIndex 3 4 2 3 .Left < (Level.new 3 4 0 : Level Unit Unit).walls_v.length ∧
    wallIndex 3 4 2 3 .Right < (Level.new 3 4 0 : Level Unit Unit).walls_v.length :=
  claim_C10 3 4 2 3 0 (by decide) (by decide)

/-! Case analysis of `is_move_possible`. -/

theorem imp_self (lvl : Level FT WT) (p : Nat × Nat) :
    lvl.is_move_possible p p = true := by
  rw [is_move_possible]
  simp

theorem imp_oob (lvl : Level FT WT) (s e : Nat × Nat) (hne : s ≠ e)
    (h : lvl.width ≤ e.1 ∨ lvl.depth ≤ e.2) :
    lvl.is_move_possible s e = false := by
  rw [is_move_possible, if_neg hne, if_pos h]

theorem imp_far (lvl : Level FT WT) (s e : Nat × Nat) (hne : s ≠ e)
    (hfar : 1 < ((e.1 : Int) - (s.1 : Int)).natAbs ∨ 1 < ((e.2 : Int) - (s.2 : Int)).natAbs) :
    lvl.is_move_possible s e = false := by
  rw [is_move_possible, if_neg hne]
  by_cases hb : e.1 ≥ lvl.width ∨ e.2 ≥ lvl.depth
  · rw [if_pos hb]
  · rw [if_neg hb]
    simp only []
    rw [if_pos]
    rcases hfar with h | h
    · exact Or.inl h
    · exact Or.inr h

theorem imp_step_right (lvl : Level FT WT) (x y : Nat) (hx : x + 1 < lvl.width)
    (hy : y < lvl.depth) :
    lvl.is_move_possible (x, y) (x + 1, y) = (lvl.wall x y .Right).isNone := by
  rw [is_move_possible]
  have hne : ¬((x, y) = (x + 1, y)) := by simp
  have hb : ¬(x + 1 ≥ lvl.width ∨ y ≥ lvl.depth) := by omega
  have hdx : ((x + 1 : Nat) : Int) - (x : Int) = 1 := by push_cast; ring
  simp [hne, hb, hdx]

theorem imp_step_left (lvl : Level FT WT) (x y : Nat) (hx : x < lvl.width)
    (hy : y < lvl.depth) :
    lvl.is_move_possible (x + 1, y) (x, y) = (lvl.wall (x + 1) y .Left).isNone := by
  rw [is_move_possible]
  have hne : ¬((x + 1, y) = (x, y)) := by simp
  have hb : ¬(x ≥ lvl.width ∨ y ≥ lvl.depth) := by omega
  have hdx : ((x : Nat) : Int) - ((x + 1 : Nat) : Int) = -1 := by push_cast; ring
  simp [hne, hb, hdx]

theorem imp_step_top (lvl : Level FT WT) (x y : Nat) (hx : x < lvl.width)
    (hy : y + 1 < lvl.depth) :
    lvl.is_move_possible (x, y) (x, y + 1) = (lvl.wall x y .Top).isNone := by
  rw [is_move_possible]
  have hne : ¬((x, y) = (x, y + 1)) := by simp
  have hb : ¬(x ≥ lvl.width ∨ y + 1 ≥ lvl.depth) := by omega
  have hdy : ((y + 1 : Nat) : Int) - (y : Int) = 1 := by push_cast; ring
  simp [hne, hb, hdy]

theorem imp_step_bottom (lvl : Level FT WT) (x y : Nat) (hx : x < lvl.width)
    (hy : y + 1 < lvl.depth) :
    lvl.is_move_possible (x, y + 1) (x, y) = (lvl.wall x (y + 1) .Bottom).isNone := by
  rw [is_move_possible]
  have hne : ¬((x, y + 1) = (x, y)) := by simp
  have hb : ¬(x ≥ lvl.width ∨ y ≥ lvl.depth) := by omega
  have hdy : ((y : Nat) : Int) - ((y + 1 : Nat) : Int) = -1 := by push_cast; ring
  simp [hne, hb, hdy]

theorem orthoWallFree_right (lvl : Level FT WT) (x y : Nat) :
    orthoWallFree lvl (x, y) (x + 1, y) = (lvl.wall x y .Right).isNone := by
  have hdx : ((x + 1 : Nat) : Int) - (x : Int) = 1 := by push_cast; ring
  simp [orthoWallFree, moveDir, hdx]

theorem orthoWallFree_left (lvl : Level FT WT) (x y : Nat) :
    orthoWallFree lvl (x + 1, y) (x, y) = (lvl.wall (x + 1) y .Left).isNone := by
  have hdx : ((x : Nat) : Int) - ((x + 1 : Nat) : Int) = -1 := by push_cast; ring
  simp [orthoWallFree, moveDir, hdx]

theorem orthoWallFree_top (lvl : Level FT WT) (x y : Nat) :
    orthoWallFree lvl (x, y) (x, y + 1) = (lvl.wall x y .Top).isNone := by
  have hdy : ((y + 1 : Nat) : Int) - (y : Int) = 1 := by push_cast; ring
  simp [orthoWallFree, moveDir, hdy]

theorem orthoWallFree_bottom (lvl : Level FT WT) (x y : Nat) :
    orthoWallFree lvl (x, y + 1) (x, y) = (lvl.wall x (y + 1) .Bottom).isNone := by
  have hdy : ((y : Nat) : Int) - ((y + 1 : Nat) : Int) = -1 := by push_cast; ring
  simp [orthoWallFree, moveDir, hdy]

/-- Diagonal moves: `is_move_possible` equals the two-L-path disjunction, each
single step judged by the orthogonal wall rule. -/
theorem imp_diag_char (lvl : Level FT WT) (s e : Nat × Nat)
    (hs1 : s.1 < lvl.width) (hs2 : s.2 < lvl.depth)
    (he1 : e.1 < lvl.width) (he2 : e.2 < lvl.depth)
    (hdx : ((e.1 : Int) - (s.1 : Int)).natAbs = 1)
    (hdy : ((e.2 : Int) - (s.2 : Int)).natAbs = 1) :
    lvl.is_move_possible s e =
      ((orthoWallFree lvl s (e.1, s.2) && orthoWallFree lvl (e.1, s.2) e) ||
       (orthoWallFree lvl s (s.1, e.2) && orthoWallFree lvl (s.1, e.2) e)) := by
  obtain ⟨sx, sy⟩ := s
  obtain ⟨ex, ey⟩ := e
  simp only at hs1 hs2 he1 he2 hdx hdy ⊢
  rw [is_move_possible]
  have hne : ¬((sx, sy) = (ex, ey)) := by
    simp only [Prod.mk.injEq, not_and]
    intro h
    omega
  have hb : ¬(ex ≥ lvl.width ∨ ey ≥ lvl.depth) := by omega
  rw [if_neg hne, if_neg hb]
  have hxc : ex = sx + 1 ∨ sx = ex + 1 := by omega
  have hyc : ey = sy + 1 ∨ sy = ey + 1 := by omega
  rcases hxc with hxc | hxc <;> rcases hyc with hyc | hyc <;> subst hxc <;> subst hyc
  · have h1 : ((sx + 1 : Nat) : Int) - (sx : Int) = 1 := by push_cast; ring
    have h2 : ((sy + 1 : Nat) : Int) - (sy : Int) = 1 := by push_cast; ring
    have h3 : ((sx : Int) + (((sx + 1 : Nat) : Int) - (sx : Int))).toNat = sx + 1 := by
      push_cast; omega
    have h4 : ((sy : Int) + (((sy + 1 : Nat) : Int) - (sy : Int))).toNat = sy + 1 := by
      push_cast; omega
    simp only [h1, h2, h3, h4]
    norm_num
    rw [imp_step_right lvl sx sy (by omega) (by omega),
        imp_step_top lvl (sx + 1) sy (by omega) (by omega),
        imp_step_top lvl sx sy (by omega) (by omega),
        imp_step_right lvl sx (sy + 1) (by omega) (by omega),
        orthoWallFree_right lvl sx sy,
        orthoWallFree_top lvl (sx + 1) sy,
        orthoWallFree_top lvl sx sy,
        orthoWallFree_right lvl sx (sy + 1)]
  · have h1 : ((sx + 1 : Nat) : Int) - (sx : Int) = 1 := by push_cast; ring
    have h2 : ((ey : Nat) : Int) - ((ey + 1 : Nat) : Int) = -1 := by push_cast; ring
    have h3 : ((sx : Int) + (((sx + 1 : Nat) : Int) - (sx : Int))).toNat = sx + 1 := by
      push_cast; omega
    have h4 : (((ey + 1 : Nat) : Int) + (((ey : Nat) : Int) - ((ey + 1 : Nat) : Int))).toNat = ey := by
      push_cast; omega
    simp only [h1, h2, h3, h4]
    norm_num
    rw [imp_step_right lvl sx (ey + 1) (by omega) (by omega),
        imp_step_bottom lvl (sx + 1) ey (by omega) (by omega),
        imp_step_bottom lvl sx ey (by omega) (by omega),
        imp_step_right lvl sx ey (by omega) (by omega),
        orthoWallFree_right lvl sx (ey + 1),
        orthoWallFree_bottom lvl (sx + 1) ey,
        orthoWallFree_bottom lvl sx ey,
        orthoWallFree_right lvl sx ey]
  · have h1 : ((ex : Nat) : Int) - ((ex + 1 : Nat) : Int) = -1 := by push_cast; ring
    have h2 : ((sy + 1 : Nat) : Int) - (sy : Int) = 1 := by push_cast; ring
    have h3 : (((ex + 1 : Nat) : Int) + (((ex : Nat) : Int) - ((ex + 1 : Nat) : Int))).toNat = ex := by
      push_cast; omega
    have h4 : ((sy : Int) + (((sy + 1 : Nat) : Int) - (sy : Int))).toNat = sy + 1 := by
      push_cast; omega
    simp only [h1, h2, h3, h4]
    norm_num
    rw [imp_step_left lvl ex sy (by omega) (by omega),
        imp_step_top lvl ex sy (by omega) (by omega),
        imp_step_top lvl (ex + 1) sy (by omega) (by omega),
        imp_step_left lvl ex (sy + 1) (by omega) (by omega),
        orthoWallFree_left lvl ex sy,
        orthoWallFree_top lvl ex sy,
        orthoWallFree_top lvl (ex + 1) sy,
        orthoWallFree_left lvl ex (sy + 1)]
  · have h1 : ((ex : Nat) : Int) - ((ex + 1 : Nat) : Int) = -1 := by push_cast; ring
    have h2 : ((ey : Nat) : Int) - ((ey + 1 : Nat) : Int) = -1 := by push_cast; ring
    have h3 : (((ex + 1 : Nat) : Int) + (((ex : Nat) : Int) - ((ex + 1 : Nat) : Int))).toNat = ex := by
      push_cast; omega
    have h4 : (((ey + 1 : Nat) : Int) + (((ey : Nat) : Int) - ((ey + 1 : Nat) : Int))).toNat = ey := by
      push_cast; omega
    simp only [h1, h2, h3, h4]
    norm_num
    rw [imp_step_left lvl ex (ey + 1) (by omega) (by omega),
        imp_step_bottom lvl ex ey (by omega) (by omega),
        imp_step_bottom lvl (ex + 1) ey (by omega) (by omega),
        imp_step_left lvl ex ey (by omega) (by omega),
        orthoWallFree_left lvl ex (ey + 1),
        orthoWallFree_bottom lvl ex ey,
        orthoWallFree_bottom lvl (ex + 1) ey,
        orthoWallFree_left lvl ex ey]

/-- Claim C4: a single orthogonal step between in-bounds tiles is legal iff
the wall at the start tile in the direction of the move is absent. -/
theorem claim_C4 (lvl : Level FT WT) (s e : Nat × Nat)
    (hs1 : s.1 < lvl.width) (hs2 : s.2 < lvl.depth)
    (he1 : e.1 < lvl.width) (he2 : e.2 < lvl.depth)
    (hadj : ((e.1 : Int) - (s.1 : Int)).natAbs + ((e.2 : Int) - (s.2 : Int)).natAbs = 1) :
    lvl.is_move_possible s e = orthoWallFree lvl s e := by
  obtain ⟨sx, sy⟩ := s
  obtain ⟨ex, ey⟩ := e
  simp only at hs1 hs2 he1 he2 hadj ⊢
  have hc : (ex = sx + 1 ∧ ey = sy) ∨ (sx = ex + 1 ∧ ey = sy) ∨
      (ex = sx ∧ ey = sy + 1) ∨ (ex = sx ∧ sy = ey + 1) := by omega
  rcases hc with ⟨h1, h2⟩ | ⟨h1, h2⟩ | ⟨h1, h2⟩ | ⟨h1, h2⟩
  · have he : (ex, ey) = (sx + 1, sy) := by rw [h1, h2]
    rw [he, imp_step_right lvl sx sy (by omega) (by omega), orthoWallFree_right]
  · have hs : (sx, sy) = (ex + 1, ey) := by rw [h1, h2]
    rw [hs, imp_step_left lvl ex ey (by omega) (by omega), orthoWallFree_left]
  · have he : (ex, ey) = (sx, sy + 1) := by rw [h1, h2]
    rw [he, imp_step_top lvl sx sy (by omega) (by omega), orthoWallFree_top]
  · have hs : (sx, sy) = (ex, ey + 1) := by rw [h1, h2]
    rw [hs, imp_step_bottom lvl ex ey (by omega) (by omega), orthoWallFree_bottom]

/-- Witness for claim C4: one step right on an empty 10 by 10 level. -/
theorem claim_C4_witness :
    (Level.new 10 10 0 : Level Unit Unit).is_move_possible (0, 2) (0, 3)
      = orthoWallFree (Level.new 10 10 0 : Level Unit Unit) (0, 2) (0, 3) :=
  claim_C4 (Level.new 10 10 0 : Level Unit Unit) (0, 2) (0, 3)
    (by decide) (by decide) (by decide) (by decide) (by decide)

/-- Claim C3: a diagonal move between in-bounds tiles is legal iff one of the
two L-shaped orthogonal paths is fully legal, each single step judged by the
orthogonal wall rule. -/
theorem claim_C3 (lvl : Level FT WT) (s e : Nat × Nat)
    (hs1 : s.1 < lvl.width) (hs2 : s.2 < lvl.depth)
    (he1 : e.1 < lvl.width) (he2 : e.2 < lvl.depth)
    (hdx : ((e.1 : Int) - (s.1 : Int)).natAbs = 1)
    (hdy : ((e.2 : Int) - (s.2 : Int)).natAbs = 1) :
    lvl.is_move_possible s e =
      ((orthoWallFree lvl s (e.1, s.2) && orthoWallFree lvl (e.1, s.2) e) ||
       (orthoWallFree lvl s (s.1, e.2) && orthoWallFree lvl (s.1, e.2) e)) :=
  imp_diag_char lvl s e hs1 hs2 he1 he2 hdx hdy

/-- Witness for claim C3: the diagonal move (0,0) to (1,1) on an empty 10 by
10 level. -/
theorem claim_C3_witness :
    (Level.new 10 10 0 : Level Unit Unit).is_move_possible (0, 0) (1, 1)
      = ((orthoWallFree (Level.new 10 10 0 : Level Unit Unit) (0, 0) (1, 0) &&
          orthoWallFree (Level.new 10 10 0 : Level Unit Unit) (1, 0) (1, 1)) ||
         (orthoWallFree (Level.new 10 10 0 : Level Unit Unit) (0, 0) (0, 1) &&
          orthoWallFree (Level.new 10 10 0 : Level Unit Unit) (0, 1) (1, 1))) :=
  claim_C3 (Level.new 10 10 0 : Level Unit Unit) (0, 0) (1, 1)
    (by decide) (by decide) (by decide) (by decide) (by decide) (by decide)

/-- Claim C8: the trivial cases of `is_move_possible`: start = end is always
true, an out-of-bounds end is false, and non-adjacent tiles are false. -/
theorem claim_C8 (lvl : Level FT WT) (p s e : Nat × Nat) :
    lvl.is_move_possible p p = true ∧
    (s ≠ e → lvl.width ≤ e.1 ∨ lvl.depth ≤ e.2 → lvl.is_move_possible s e = false) ∧
    (s ≠ e → 1 < ((e.1 : Int) - (s.1 : Int)).natAbs ∨ 1 < ((e.2 : Int) - (s.2 : Int)).natAbs →
      lvl.is_move_possible s e = false) :=
  ⟨imp_self lvl p, fun hne h => imp_oob lvl s e hne h, fun hne h => imp_far lvl s e hne h⟩

/-- Witness for claim C8 on an empty 10 by 10 level. -/
theorem claim_C8_witness :
    (Level.new 10 10 0 : Level Unit Unit).is_move_possible (2, 3) (2, 3) = true ∧
    (Level.new 10 10 0 : Level Unit Unit).is_move_possible (9, 9) (9, 10) = false ∧
    (Level.new 10 10 0 : Level Unit Unit).is_move_possible (0, 0) (2, 0) = false :=
  ⟨(claim_C8 (Level.new 10 10 0 : Level Unit Unit) (2, 3) (0, 0) (0, 0)).1,
   (claim_C8 (Level.new 10 10 0 : Level Unit Unit) (2, 3) (9, 9) (9, 10)).2.1
     (by decide) (by decide),
   (claim_C8 (Level.new 10 10 0 : Level Unit Unit) (2, 3) (0, 0) (2, 0)).2.2
     (by decide) (by decide)⟩

/-- Claim C9: move legality is symmetric between in-bounds tiles. -/
theorem claim_C9 (lvl : Level FT WT) (a b : Nat × Nat)
    (ha1 : a.1 < lvl.width) (ha2 : a.2 < lvl.depth)
    (hb1 : b.1 < lvl.width) (hb2 : b.2 < lvl.depth) :
    lvl.is_move_possible a b = lvl.is_move_possible b a := by
  by_cases hab : a = b
  · subst hab; rfl
  have hba : ¬(b = a) := fun h => hab h.symm
  obtain ⟨ax, ay⟩ := a
  obtain ⟨u, v⟩ := b
  simp only at ha1 ha2 hb1 hb2
  by_cases hfx : 1 < ((u : Int) - (ax : Int)).natAbs
  · rw [imp_far lvl (ax, ay) (u, v) hab (Or.inl hfx),
        imp_far lvl (u, v) (ax, ay) hba (Or.inl (by simp only; omega))]
  by_cases hfy : 1 < ((v : Int) - (ay : Int)).natAbs
  · rw [imp_far lvl (ax, ay) (u, v) hab (Or.inr hfy),
        imp_far lvl (u, v) (ax, ay) hba (Or.inr (by simp only; omega))]
  have hcx : u = ax + 1 ∨ ax = u + 1 ∨ u = ax := by omega
  have hcy : v = ay + 1 ∨ ay = v + 1 ∨ v = ay := by omega
  have hdRT : ∀ m n : Nat, (((m + 1 : Nat) : Int) - (m : Int)).natAbs = 1 ∧
      (((m : Nat) : Int) - ((m + 1 : Nat) : Int)).natAbs = 1 := by
    intro m n
    constructor <;> omega
  rcases hcx with h1 | h1 | h1 <;> rcases hcy with h2 | h2 | h2
  · -- diagonal (+1, +1): b = (ax + 1, ay + 1)
    have hb : (u, v) = (ax + 1, ay + 1) := by rw [h1, h2]
    rw [hb,
        imp_diag_char lvl (ax, ay) (ax + 1, ay + 1) ha1 ha2
          (show ax + 1 < lvl.width by omega) (show ay + 1 < lvl.depth by omega)
          ((hdRT ax 0).1) ((hdRT ay 0).1),
        imp_diag_char lvl (ax + 1, ay + 1) (ax, ay)
          (show ax + 1 < lvl.width by omega) (show ay + 1 < lvl.depth by omega) ha1 ha2
          ((hdRT ax 0).2) ((hdRT ay 0).2)]
    simp only [orthoWallFree_right lvl ax ay, orthoWallFree_top lvl (ax + 1) ay,
      orthoWallFree_top lvl ax ay, orthoWallFree_right lvl ax (ay + 1),
      orthoWallFree_left lvl ax (ay + 1), orthoWallFree_bottom lvl ax ay,
      orthoWallFree_bottom lvl (ax + 1) ay, orthoWallFree_left lvl ax ay]
    rw [← wall_right_eq_left lvl ax (ay + 1), ← wall_top_eq_bottom lvl ax ay,
        ← wall_top_eq_bottom lvl (ax + 1) ay, ← wall_right_eq_left lvl ax ay]
    cases (lvl.wall ax ay .Right).isNone <;> cases (lvl.wall (ax + 1) ay .Top).isNone <;>
      cases (lvl.wall ax ay .Top).isNone <;> cases (lvl.wall ax (ay + 1) .Right).isNone <;> rfl
  · -- diagonal (+1, -1): a = (ax, v + 1), b = (ax + 1, v)
    have ha : (ax, ay) = (ax, v + 1) := by rw [h2]
    have hb : (u, v) = (ax + 1, v) := by rw [h1]
    rw [ha, hb,
        imp_diag_char lvl (ax, v + 1) (ax + 1, v) ha1
          (show v + 1 < lvl.depth by omega) (show ax + 1 < lvl.width by omega) hb2
          ((hdRT ax 0).1) ((hdRT v 0).2),
        imp_diag_char lvl (ax + 1, v) (ax, v + 1)
          (show ax + 1 < lvl.width by omega) hb2 ha1 (show v + 1 < lvl.depth by omega)
          ((hdRT ax 0).2) ((hdRT v 0).1)]
    simp only [orthoWallFree_right lvl ax (v + 1), orthoWallFree_bottom lvl (ax + 1) v,
      orthoWallFree_bottom lvl ax v, orthoWallFree_right lvl ax v,
      orthoWallFree_left lvl ax v, orthoWallFree_top lvl (ax + 1) v,
      orthoWallFree_top lvl ax v, orthoWallFree_left lvl ax (v + 1)]
    rw [← wall_right_eq_left lvl ax v, ← wall_top_eq_bottom lvl (ax + 1) v,
        ← wall_top_eq_bottom lvl ax v, ← wall_right_eq_left lvl ax (v + 1)]
    cases (lvl.wall ax (v + 1) .Right).isNone <;> cases (lvl.wall (ax + 1) v .Top).isNone <;>
      cases (lvl.wall ax v .Top).isNone <;> cases (lvl.wall ax v .Right).isNone <;> rfl
  · -- orthogonal (+1, 0): b = (ax + 1, ay)
    have hb : (u, v) = (ax + 1, ay) := by rw [h1, h2]
    rw [hb, imp_step_right lvl ax ay (by omega) (by omega),
        imp_step_left lvl ax ay (by omega) (by omega),
        wall_right_eq_left lvl ax ay]
  · -- diagonal (-1, +1): a = (u + 1, ay), b = (u, ay + 1)
    have ha : (ax, ay) = (u + 1, ay) := by rw [h1]
    have hb : (u, v) = (u, ay + 1) := by rw [h2]
    rw [ha, hb,
        imp_diag_char lvl (u + 1, ay) (u, ay + 1)
          (show u + 1 < lvl.width by omega) ha2 hb1 (show ay + 1 < lvl.depth by omega)
          ((hdRT u 0).2) ((hdRT ay 0).1),
        imp_diag_char lvl (u, ay + 1) (u + 1, ay) hb1
          (show ay + 1 < lvl.depth by omega) (show u + 1 < lvl.width by omega) ha2
          ((hdRT u 0).1) ((hdRT ay 0).2)]
    simp only [orthoWallFree_left lvl u ay, orthoWallFree_top lvl u ay,
      orthoWallFree_top lvl (u + 1) ay, orthoWallFree_left lvl u (ay + 1),
      orthoWallFree_right lvl u (ay + 1), orthoWallFree_bottom lvl (u + 1) ay,
      orthoWallFree_bottom lvl u ay, orthoWallFree_right lvl u ay]
    rw [← wall_right_eq_left lvl u (ay + 1), ← wall_top_eq_bottom lvl (u + 1) ay,
        ← wall_top_eq_bottom lvl u ay, ← wall_right_eq_left lvl u ay]
    cases (lvl.wall u (ay + 1) .Right).isNone <;> cases (lvl.wall (u + 1) ay .Top).isNone <;>
      cases (lvl.wall u ay .Top).isNone <;> cases (lvl.wall u ay .Right).isNone <;> rfl
  · -- diagonal (-1, -1): a = (u + 1, v + 1), b = (u, v)
    have ha : (ax, ay) = (u + 1, v + 1) := by rw [h1, h2]
    rw [ha,
        imp_diag_char lvl (u + 1, v + 1) (u, v)
          (show u + 1 < lvl.width by omega) (show v + 1 < lvl.depth by omega) hb1 hb2
          ((hdRT u 0).2) ((hdRT v 0).2),
        imp_diag_char lvl (u, v) (u + 1, v + 1) hb1 hb2
          (show u + 1 < lvl.width by omega) (show v + 1 < lvl.depth by omega)
          ((hdRT u 0).1) ((hdRT v 0).1)]
    simp only [orthoWallFree_left lvl u (v + 1), orthoWallFree_bottom lvl u v,
      orthoWallFree_bottom lvl (u + 1) v, orthoWallFree_left lvl u v,
      orthoWallFree_right lvl u v, orthoWallFree_top lvl (u + 1) v,
      orthoWallFree_top lvl u v, orthoWallFree_right lvl u (v + 1)]
    rw [← wall_right_eq_left lvl u (v + 1), ← wall_top_eq_bottom lvl u v,
        ← wall_top_eq_bottom lvl (u + 1) v, ← wall_right_eq_left lvl u v]
    cases (lvl.wall u (v + 1) .Right).isNone <;> cases (lvl.wall (u + 1) v .Top).isNone <;>
      cases (lvl.wall u v .Top).isNone <;> cases (lvl.wall u v .Right).isNone <;> rfl
  · -- orthogonal (-1, 0): a = (u + 1, v)
    have ha : (ax, ay) = (u + 1, v) := by rw [h1, h2]
    rw [ha, imp_step_left lvl u v (by omega) (by omega),
        imp_step_right lvl u v (by omega) (by omega),
        wall_right_eq_left lvl u v]
  · -- orthogonal (0, +1): b = (ax, ay + 1)
    have hb : (u, v) = (ax, ay + 1) := by rw [h1, h2]
    rw [hb, imp_step_top lvl ax ay (by omega) (by omega),
        imp_step_bottom lvl ax ay (by omega) (by omega),
        wall_top_eq_bottom lvl ax ay]
  · -- orthogonal (0, -1): a = (ax, v + 1), b = (ax, v)
    have ha : (ax, ay) = (ax, v + 1) := by rw [h2]
    have hb : (u, v) = (ax, v) := by rw [h1]
    rw [ha, hb, imp_step_bottom lvl ax v (by omega) (by omega),
        imp_step_top lvl ax v (by omega) (by omega),
        wall_top_eq_bottom lvl ax v]
  · exact absurd (show ((ax : Nat), ay) = (u, v) by rw [h1, h2]) hab

/-- Witness for claim C9 on an empty 10 by 10 level. -/
theorem claim_C9_witness :
    (Level.new 10 10 0 : Level Unit Unit).is_move_possible (1, 0) (0, 1)
      = (Level.new 10 10 0 : Level Unit Unit).is_move_possible (0, 1) (1, 0) :=
  claim_C9 (Level.new 10 10 0 : Level Unit Unit) (1, 0) (0, 1)
    (by decide) (by decide) (by decide) (by decide)

/-! Characterizations of the two `add_border_walls` loops. -/

theorem getElem?_set_cond {α : Type} (l : List α) (m n : Nat) (a : α) :
    (l.set m a)[n]? = if m = n ∧ n < l.length then some a else l[n]? := by
  by_cases h : m = n
  · subst h
    by_cases h2 : m < l.length
    · simp [List.getElem?_set_eq_of_lt a h2, h2]
    · rw [List.set_eq_of_length_le (by omega)]
      simp [h2]
  · simp [List.getElem?_set_ne h, h]

theorem border_h_fold (d : WT) (W D : Nat) (hD : 1 ≤ D) (xs : List Nat) :
    ∀ l : Level FT WT, l.width = W → l.depth = D → l.walls_h.length = (D + 1) * W →
      (∀ x ∈ xs, x < W) →
      (xs.foldl (border_step_h d D) l).width = W ∧
      (xs.foldl (border_step_h d D) l).depth = D ∧
      (xs.foldl (border_step_h d D) l).floor = l.floor ∧
      (xs.foldl (border_step_h d D) l).walls_v = l.walls_v ∧
      (xs.foldl (border_step_h d D) l).walls_h.length = l.walls_h.length ∧
      ∀ j : Nat, ((xs.foldl (border_step_h d D) l).walls_h)[j]? =
        if ∃ x ∈ xs, j = x * (D + 1) ∨ j = x * (D + 1) + D then some (some d)
        else l.walls_h[j]? := by
  induction xs with
  | nil =>
    intro l hW hD' hlen _
    simp [hW, hD']
  | cons a xs ih =>
    intro l hW hD' hlen hmem
    have ha : a < W := hmem a (List.mem_cons_self a xs)
    have hwalls : (border_step_h d D l a).walls_h
        = (l.walls_h.set (wallIndex l.width l.depth a 0 .Bottom) (some d)).set
            (wallIndex (l.set_wall a 0 .Bottom (some d)).width
              (l.set_wall a 0 .Bottom (some d)).depth a (D - 1) .Top) (some d) := by
      rw [border_step_h, set_wall_walls_h_Top, set_wall_walls_h_Bottom]
    have hW2 : (border_step_h d D l a).width = W := by
      simp [border_step_h, hW]
    have hD2 : (border_step_h d D l a).depth = D := by
      simp [border_step_h, hD']
    have hfloor2 : (border_step_h d D l a).floor = l.floor := by
      simp [border_step_h]
    have hv2 : (border_step_h d D l a).walls_v = l.walls_v := by
      rw [border_step_h, set_wall_walls_v_Top, set_wall_walls_v_Bottom]
    have hlen2 : (border_step_h d D l a).walls_h.length = l.walls_h.length := by
      simp [border_step_h]
    obtain ⟨ihW, ihD, ihfloor, ihv, ihlen, ihj⟩ :=
      ih (border_step_h d D l a) hW2 hD2 (by rw [hlen2, hlen])
        (fun x hx => hmem x (List.mem_cons_of_mem _ hx))
    rw [List.foldl_cons]
    refine ⟨ihW, ihD, ?_, ?_, ?_, ?_⟩
    · rw [ihfloor, hfloor2]
    · rw [ihv, hv2]
    · rw [ihlen, hlen2]
    · intro j
      rw [ihj j]
      by_cases hex : ∃ x ∈ xs, j = x * (D + 1) ∨ j = x * (D + 1) + D
      · rw [if_pos hex]
        obtain ⟨x, hx1, hx2⟩ := hex
        rw [if_pos ⟨x, List.mem_cons_of_mem a hx1, hx2⟩]
      · rw [if_neg hex, hwalls]
        rw [getElem?_set_cond, getElem?_set_cond]
        simp only [List.length_set, set_wall_width, set_wall_depth, wallIndex, hW, hD', hlen]
        by_cases hjT : j = a * (D + 1) + D
        · rw [if_pos ⟨by omega, by
              have := @hIndex_lt W D a D ha (le_refl D)
              omega⟩,
            if_pos ⟨a, List.mem_cons_self a xs, Or.inr hjT⟩]
        by_cases hjB : j = a * (D + 1)
        · rw [if_neg (by omega), if_pos ⟨by omega, by
              have := @hIndex_lt W D a 0 ha (by omega)
              omega⟩,
            if_pos ⟨a, List.mem_cons_self a xs, Or.inl hjB⟩]
        · rw [if_neg (by omega), if_neg (by omega), if_neg ?_]
          rintro ⟨x, hx1, hx2⟩
          rcases List.mem_cons.mp hx1 with hx1 | hx1
          · subst hx1
            rcases hx2 with hx2 | hx2 <;> omega
          · exact hex ⟨x, hx1, hx2⟩

theorem border_v_fold (d : WT) (W D : Nat) (hW : 1 ≤ W) (ys : List Nat) :
    ∀ l : Level FT WT, l.width = W → l.depth = D → l.walls_v.length = (W + 1) * D →
      (∀ y ∈ ys, y < D) →
      (ys.foldl (border_step_v d W) l).width = W ∧
      (ys.foldl (border_step_v d W) l).depth = D ∧
      (ys.foldl (border_step_v d W) l).floor = l.floor ∧
      (ys.foldl (border_step_v d W) l).walls_h = l.walls_h ∧
      (ys.foldl (border_step_v d W) l).walls_v.length = l.walls_v.length ∧
      ∀ j : Nat, ((ys.foldl (border_step_v d W) l).walls_v)[j]? =
        if ∃ y ∈ ys, j = y * (W + 1) ∨ j = y * (W + 1) + W then some (some d)
        else l.walls_v[j]? := by
  induction ys with
  | nil =>
    intro l hW' hD' hlen _
    simp [hW', hD']
  | cons a ys ih =>
    intro l hW' hD' hlen hmem
    have ha : a < D := hmem a (List.mem_cons_self a ys)
    have hwalls : (border_step_v d W l a).walls_v
        = (l.walls_v.set (wallIndex l.width l.depth 0 a .Left) (some d)).set
            (wallIndex (l.set_wall 0 a .Left (some d)).width
              (l.set_wall 0 a .Left (some d)).depth (W - 1) a .Right) (some d) := by
      rw [border_step_v, set_wall_walls_v_Right, set_wall_walls_v_Left]
    have hW2 : (border_step_v d W l a).width = W := by
      simp [border_step_v, hW']
    have hD2 : (border_step_v d W l a).depth = D := by
      simp [border_step_v, hD']
    have hfloor2 : (border_step_v d W l a).floor = l.floor := by
      simp [border_step_v]
    have hh2 : (border_step_v d W l a).walls_h = l.walls_h := by
      rw [border_step_v, set_wall_walls_h_Right, set_wall_walls_h_Left]
    have hlen2 : (border_step_v d W l a).walls_v.length = l.walls_v.length := by
      simp [border_step_v]
    obtain ⟨ihW, ihD, ihfloor, ihh, ihlen, ihj⟩ :=
      ih (border_step_v d W l a) hW2 hD2 (by rw [hlen2, hlen])
        (fun y hy => hmem y (List.mem_cons_of_mem _ hy))
    rw [List.foldl_cons]
    refine ⟨ihW, ihD, ?_, ?_, ?_, ?_⟩
    · rw [ihfloor, hfloor2]
    · rw [ihh, hh2]
    · rw [ihlen, hlen2]
    · intro j
      rw [ihj j]
      by_cases hex : ∃ y ∈ ys, j = y * (W + 1) ∨ j = y * (W + 1) + W
      · rw [if_pos hex]
        obtain ⟨y, hy1, hy2⟩ := hex
        rw [if_pos ⟨y, List.mem_cons_of_mem a hy1, hy2⟩]
      · rw [if_neg hex, hwalls]
        rw [getElem?_set_cond, getElem?_set_cond]
        simp only [List.length_set, set_wall_width, set_wall_depth, wallIndex, hW', hD', hlen]
        by_cases hjR : j = a * (W + 1) + W
        · rw [if_pos ⟨by omega, by
              have := @vIndex_lt W D W a ha (le_refl W)
              omega⟩,
            if_pos ⟨a, List.mem_cons_self a ys, Or.inr hjR⟩]
        by_cases hjL : j = a * (W + 1)
        · rw [if_neg (by omega), if_pos ⟨by omega, by
              have := @vIndex_lt W D 0 a ha (by omega)
              omega⟩,
            if_pos ⟨a, List.mem_cons_self a ys, Or.inl hjL⟩]
        · rw [if_neg (by omega), if_neg (by omega), if_neg ?_]
          rintro ⟨y, hy1, hy2⟩
          rcases List.mem_cons.mp hy1 with hy1 | hy1
          · subst hy1
            rcases hy2 with hy2 | hy2 <;> omega
          · exact hex ⟨y, hy1, hy2⟩

/-- Claim C6: after `add_border_walls` on a wall-free W by D level, every
boundary edge has a wall and no interior-only edge gained one. -/
theorem claim_C6 (lvl : Level FT WT) (d : WT)
    (hW : 1 ≤ lvl.width) (hD : 1 ≤ lvl.depth)
    (hh : lvl.walls_h = List.replicate ((lvl.depth + 1) * lvl.width) none)
    (hv : lvl.walls_v = List.replicate ((lvl.width + 1) * lvl.depth) none) :
    (∀ x, x < lvl.width →
      (lvl.add_border_walls d).wall x 0 .Bottom = some d ∧
      (lvl.add_border_walls d).wall x (lvl.depth - 1) .Top = some d) ∧
    (∀ y, y < lvl.depth →
      (lvl.add_border_walls d).wall 0 y .Left = some d ∧
      (lvl.add_border_walls d).wall (lvl.width - 1) y .Right = some d) ∧
    (∀ x y, x < lvl.width → y + 1 < lvl.depth →
      (lvl.add_border_walls d).wall x y .Top = none) ∧
    (∀ x y, x + 1 < lvl.width → y < lvl.depth →
      (lvl.add_border_walls d).wall x y .Right = none) := by
  obtain ⟨h1W, h1D, h1floor, h1v, h1len, h1j⟩ :=
    border_h_fold d lvl.width lvl.depth hD (List.range lvl.width) lvl rfl rfl
      (by rw [hh, List.length_replicate]) (fun x hx => List.mem_range.mp hx)
  obtain ⟨h2W, h2D, h2floor, h2h, h2len, h2j⟩ :=
    border_v_fold d lvl.width lvl.depth hW (List.range lvl.depth)
      ((List.range lvl.width).foldl (border_step_h d lvl.depth) lvl) h1W h1D
      (by rw [h1v, hv, List.length_replicate]) (fun y hy => List.mem_range.mp hy)
  have hunfold : lvl.add_border_walls d
      = (List.range lvl.depth).foldl (border_step_v d lvl.width)
          ((List.range lvl.width).foldl (border_step_h d lvl.depth) lvl) := by
    simp only [add_border_walls]
  refine ⟨?_, ?_, ?_, ?_⟩
  · intro x hx
    constructor
    · show (lvl.add_border_walls d).walls_h.getD
        (wallIndex (lvl.add_border_walls d).width (lvl.add_border_walls d).depth x 0 .Bottom)
        none = some d
      rw [hunfold, h2h, h2W, h2D, List.getD_eq_getElem?_getD, h1j]
      rw [if_pos ⟨x, List.mem_range.mpr hx, Or.inl (by simp [wallIndex])⟩]
      rfl
    · show (lvl.add_border_walls d).walls_h.getD
        (wallIndex (lvl.add_border_walls d).width (lvl.add_border_walls d).depth
          x (lvl.depth - 1) .Top) none = some d
      rw [hunfold, h2h, h2W, h2D, List.getD_eq_getElem?_getD, h1j]
      rw [if_pos ⟨x, List.mem_range.mpr hx, Or.inr (by simp only [wallIndex]; omega)⟩]
      rfl
  · intro y hy
    constructor
    · show (lvl.add_border_walls d).walls_v.getD
        (wallIndex (lvl.add_border_walls d).width (lvl.add_border_walls d).depth 0 y .Left)
        none = some d
      rw [hunfold, h2W, h2D, List.getD_eq_getElem?_getD, h2j]
      rw [if_pos ⟨y, List.mem_range.mpr hy, Or.inl (by simp [wallIndex])⟩]
      rfl
    · show (lvl.add_border_walls d).walls_v.getD
        (wallIndex (lvl.add_border_walls d).width (lvl.add_border_walls d).depth
          (lvl.width - 1) y .Right) none = some d
      rw [hunfold, h2W, h2D, List.getD_eq_getElem?_getD, h2j]
      rw [if_pos ⟨y, List.mem_range.mpr hy, Or.inr (by simp only [wallIndex]; omega)⟩]
      rfl
  · intro x y hx hy
    show (lvl.add_border_walls d).walls_h.getD
      (wallIndex (lvl.add_border_walls d).width (lvl.add_border_walls d).depth x y .Top)
      none = none
    rw [hunfold, h2h, h2W, h2D, List.getD_eq_getElem?_getD, h1j]
    rw [if_neg ?_]
    · rw [← List.getD_eq_getElem?_getD, hh]
      exact getD_replicate_none
    · rintro ⟨a, ha1, ha2⟩
      simp only [wallIndex] at ha2
      rcases ha2 with ha2 | ha2
      · have := mul_add_inj (m := lvl.depth + 1) (by omega : (0 : Nat) < lvl.depth + 1)
          (by omega : y + 1 < lvl.depth + 1)
          (by omega : a * (lvl.depth + 1) + 0 = x * (lvl.depth + 1) + (y + 1))
        omega
      · have := mul_add_inj (m := lvl.depth + 1) (by omega : lvl.depth < lvl.depth + 1)
          (by omega : y + 1 < lvl.depth + 1)
          (by omega : a * (lvl.depth + 1) + lvl.depth = x * (lvl.depth + 1) + (y + 1))
        omega
  · intro x y hx hy
    show (lvl.add_border_walls d).walls_v.getD
      (wallIndex (lvl.add_border_walls d).width (lvl.add_border_walls d).depth x y .Right)
      none = none
    rw [hunfold, h2W, h2D, List.getD_eq_getElem?_getD, h2j]
    rw [if_neg ?_]
    · rw [h1v, ← List.getD_eq_getElem?_getD, hv]
      exact getD_replicate_none
    · rintro ⟨a, ha1, ha2⟩
      simp only [wallIndex] at ha2
      rcases ha2 with ha2 | ha2
      · have := mul_add_inj (m := lvl.width + 1) (by omega : (0 : Nat) < lvl.width + 1)
          (by omega : x + 1 < lvl.width + 1)
          (by omega : a * (lvl.width + 1) + 0 = y * (lvl.width + 1) + (x + 1))
        omega
      · have := mul_add_inj (m := lvl.width + 1) (by omega : lvl.width < lvl.width + 1)
          (by omega : x + 1 < lvl.width + 1)
          (by omega : a * (lvl.width + 1) + lvl.width = y * (lvl.width + 1) + (x + 1))
        omega

/-- Witness for claim C6 on a wall-free 2 by 3 level. -/
theorem claim_C6_witness :
    ((Level.new 2 3 0 : Level Unit Unit).add_border_walls ()).wall 1 0 .Bottom = some () ∧
    ((Level.new 2 3 0 : Level Unit Unit).add_border_walls ()).wall 1 2 .Top = some () ∧
    ((Level.new 2 3 0 : Level Unit Unit).add_border_walls ()).wall 0 1 .Left = some () ∧
    ((Level.new 2 3 0 : Level Unit Unit).add_border_walls ()).wall 1 1 .Right = some () ∧
    ((Level.new 2 3 0 : Level Unit Unit).add_border_walls ()).wall 0 0 .Top = none := by
  have h := claim_C6 (Level.new 2 3 0 : Level Unit Unit) () (by decide) (by decide) rfl rfl
  exact ⟨(h.1 1 (by decide)).1, (h.1 1 (by decide)).2, (h.2.1 1 (by decide)).1,
    (h.2.1 1 (by decide)).2, h.2.2.1 0 0 (by decide) (by decide)⟩

/-! Characterization of the `add_cliff_walls` loops. -/

theorem cliff_step_width (t : ℚ) (d : WT) (x : Nat) (l : Level FT WT) (a : Nat) :
    (cliff_step t d x l a).width = l.width := by
  simp only [cliff_step]
  split_ifs <;> simp

theorem cliff_step_depth (t : ℚ) (d : WT) (x : Nat) (l : Level FT WT) (a : Nat) :
    (cliff_step t d x l a).depth = l.depth := by
  simp only [cliff_step]
  split_ifs <;> simp

theorem cliff_step_floor (t : ℚ) (d : WT) (x : Nat) (l : Level FT WT) (a : Nat) :
    (cliff_step t d x l a).floor = l.floor := by
  simp only [cliff_step]
  split_ifs <;> simp

theorem cliff_step_z (t : ℚ) (d : WT) (x : Nat) (l : Level FT WT) (a u v : Nat) :
    (cliff_step t d x l a).z u v = l.z u v := by
  simp only [cliff_step]
  split_ifs <;> simp

theorem cliff_step_walls_h (t : ℚ) (d : WT) (x : Nat) (l : Level FT WT) (a : Nat) :
    (cliff_step t d x l a).walls_h =
      if |l.z x a - l.z x (a + 1)| ≥ t then
        l.walls_h.set (wallIndex l.width l.depth x a .Top) (some d)
      else l.walls_h := by
  simp only [cliff_step]
  split_ifs <;>
    simp [set_wall_walls_h_Right, set_wall_walls_h_Top]

theorem cliff_step_walls_v (t : ℚ) (d : WT) (x : Nat) (l : Level FT WT) (a : Nat) :
    (cliff_step t d x l a).walls_v =
      if |l.z x a - l.z (x + 1) a| ≥ t then
        l.walls_v.set (wallIndex l.width l.depth x a .Right) (some d)
      else l.walls_v := by
  simp only [cliff_step]
  split_ifs <;>
    simp [set_wall_walls_v_Top, set_wall_walls_v_Right, set_wall_width, set_wall_depth]

theorem cliff_step_walls_h_length (t : ℚ) (d : WT) (x : Nat) (l : Level FT WT) (a : Nat) :
    (cliff_step t d x l a).walls_h.length = l.walls_h.length := by
  rw [cliff_step_walls_h]
  split_ifs <;> simp

theorem cliff_step_walls_v_length (t : ℚ) (d : WT) (x : Nat) (l : Level FT WT) (a : Nat) :
    (cliff_step t d x l a).walls_v.length = l.walls_v.length := by
  rw [cliff_step_walls_v]
  split_ifs <;> simp

theorem cliff_inner_fold (t : ℚ) (d : WT) (W D x : Nat) (hx : x + 1 < W) (ys : List Nat) :
    ∀ l : Level FT WT, l.width = W → l.depth = D →
      l.walls_h.length = (D + 1) * W → l.walls_v.length = (W + 1) * D →
      (∀ y ∈ ys, y + 1 < D) →
      (ys.foldl (cliff_step t d x) l).width = W ∧
      (ys.foldl (cliff_step t d x) l).depth = D ∧
      (ys.foldl (cliff_step t d x) l).floor = l.floor ∧
      (ys.foldl (cliff_step t d x) l).walls_h.length = l.walls_h.length ∧
      (ys.foldl (cliff_step t d x) l).walls_v.length = l.walls_v.length ∧
      (∀ j : Nat, ((ys.foldl (cliff_step t d x) l).walls_h)[j]? =
        if ∃ y ∈ ys, j = x * (D + 1) + (y + 1) ∧ |l.z x y - l.z x (y + 1)| ≥ t
        then some (some d) else l.walls_h[j]?) ∧
      (∀ j : Nat, ((ys.foldl (cliff_step t d x) l).walls_v)[j]? =
        if ∃ y ∈ ys, j = y * (W + 1) + (x + 1) ∧ |l.z x y - l.z (x + 1) y| ≥ t
        then some (some d) else l.walls_v[j]?) := by
  induction ys with
  | nil =>
    intro l hW hD hlh hlv _
    simp [hW, hD]
  | cons a ys ih =>
    intro l hW hD hlh hlv hmem
    have ha : a + 1 < D := hmem a (List.mem_cons_self a ys)
    obtain ⟨ihW, ihD, ihfloor, ihlh, ihlv, ihjh, ihjv⟩ :=
      ih (cliff_step t d x l a) (by rw [cliff_step_width, hW]) (by rw [cliff_step_depth, hD])
        (by rw [cliff_step_walls_h_length, hlh]) (by rw [cliff_step_walls_v_length, hlv])
        (fun y hy => hmem y (List.mem_cons_of_mem _ hy))
    rw [List.foldl_cons]
    refine ⟨ihW, ihD, ?_, ?_, ?_, ?_, ?_⟩
    · rw [ihfloor, cliff_step_floor]
    · rw [ihlh, cliff_step_walls_h_length]
    · rw [ihlv, cliff_step_walls_v_length]
    · intro j
      rw [ihjh j]
      simp only [cliff_step_z]
      by_cases hex : ∃ y ∈ ys, j = x * (D + 1) + (y + 1) ∧ |l.z x y - l.z x (y + 1)| ≥ t
      · rw [if_pos hex]
        obtain ⟨y, hy1, hy2⟩ := hex
        rw [if_pos ⟨y, List.mem_cons_of_mem a hy1, hy2⟩]
      · rw [if_neg hex, cliff_step_walls_h, hW, hD]
        by_cases hc : |l.z x a - l.z x (a + 1)| ≥ t
        · rw [if_pos hc, getElem?_set_cond]
          simp only [wallIndex, hlh]
          by_cases hj : j = x * (D + 1) + (a + 1)
          · rw [if_pos ⟨by omega, by
                have := @hIndex_lt W D x (a + 1) (by omega) (by omega)
                omega⟩,
              if_pos ⟨a, List.mem_cons_self a ys, hj, hc⟩]
          · rw [if_neg (by omega), if_neg ?_]
            rintro ⟨y, hy1, hy2, hy3⟩
            rcases List.mem_cons.mp hy1 with hy1 | hy1
            · subst hy1
              exact hj hy2
            · exact hex ⟨y, hy1, hy2, hy3⟩
        · rw [if_neg hc, if_neg ?_]
          rintro ⟨y, hy1, hy2, hy3⟩
          rcases List.mem_cons.mp hy1 with hy1 | hy1
          · subst hy1
            exact hc hy3
          · exact hex ⟨y, hy1, hy2, hy3⟩
    · intro j
      rw [ihjv j]
      simp only [cliff_step_z]
      by_cases hex : ∃ y ∈ ys, j = y * (W + 1) + (x + 1) ∧ |l.z x y - l.z (x + 1) y| ≥ t
      · rw [if_pos hex]
        obtain ⟨y, hy1, hy2⟩ := hex
        rw [if_pos ⟨y, List.mem_cons_of_mem a hy1, hy2⟩]
      · rw [if_neg hex, cliff_step_walls_v, hW, hD]
        by_cases hc : |l.z x a - l.z (x + 1) a| ≥ t
        · rw [if_pos hc, getElem?_set_cond]
          simp only [wallIndex, hlv]
          by_cases hj : j = a * (W + 1) + (x + 1)
          · rw [if_pos ⟨by omega, by
                have := @vIndex_lt W D (x + 1) a (by omega) (by omega)
                omega⟩,
              if_pos ⟨a, List.mem_cons_self a ys, hj, hc⟩]
          · rw [if_neg (by omega), if_neg ?_]
            rintro ⟨y, hy1, hy2, hy3⟩
            rcases List.mem_cons.mp hy1 with hy1 | hy1
            · subst hy1
              exact hj hy2
            · exact hex ⟨y, hy1, hy2, hy3⟩
        · rw [if_neg hc, if_neg ?_]
          rintro ⟨y, hy1, hy2, hy3⟩
          rcases List.mem_cons.mp hy1 with hy1 | hy1
          · subst hy1
            exact hc hy3
          · exact hex ⟨y, hy1, hy2, hy3⟩

open Classical in
theorem cliff_outer_fold (t : ℚ) (d : WT) (W D : Nat) (xs : List Nat) :
    ∀ l : Level FT WT, l.width = W → l.depth = D →
      l.walls_h.length = (D + 1) * W → l.walls_v.length = (W + 1) * D →
      (∀ x ∈ xs, x + 1 < W) →
      (xs.foldl (fun lx x => (List.range (D - 1)).foldl (cliff_step t d x) lx) l).width = W ∧
      (xs.foldl (fun lx x => (List.range (D - 1)).foldl (cliff_step t d x) lx) l).depth = D ∧
      (xs.foldl (fun lx x => (List.range (D - 1)).foldl (cliff_step t d x) lx) l).floor = l.floor ∧
      (xs.foldl (fun lx x => (List.range (D - 1)).foldl (cliff_step t d x) lx) l).walls_h.length
        = l.walls_h.length ∧
      (xs.foldl (fun lx x => (List.range (D - 1)).foldl (cliff_step t d x) lx) l).walls_v.length
        = l.walls_v.length ∧
      (∀ j : Nat,
        ((xs.foldl (fun lx x => (List.range (D - 1)).foldl (cliff_step t d x) lx) l).walls_h)[j]? =
        if ∃ x ∈ xs, ∃ y ∈ List.range (D - 1),
            j = x * (D + 1) + (y + 1) ∧ |l.z x y - l.z x (y + 1)| ≥ t
        then some (some d) else l.walls_h[j]?) ∧
      (∀ j : Nat,
        ((xs.foldl (fun lx x => (List.range (D - 1)).foldl (cliff_step t d x) lx) l).walls_v)[j]? =
        if ∃ x ∈ xs, ∃ y ∈ List.range (D - 1),
            j = y * (W + 1) + (x + 1) ∧ |l.z x y - l.z (x + 1) y| ≥ t
        then some (some d) else l.walls_v[j]?) := by
  induction xs with
  | nil =>
    intro l hW hD hlh hlv _
    simp [hW, hD]
  | cons a xs ih =>
    intro l hW hD hlh hlv hmem
    have ha : a + 1 < W := hmem a (List.mem_cons_self a xs)
    obtain ⟨innW, innD, innFloor, innLh, innLv, innJh, innJv⟩ :=
      cliff_inner_fold t d W D a ha (List.range (D - 1)) l hW hD hlh hlv
        (fun y hy => by have := List.mem_range.mp hy; omega)
    have hz : ∀ u v, ((List.range (D - 1)).foldl (cliff_step t d a) l).z u v = l.z u v := by
      intro u v
      simp [z, get_index, innFloor, innW, hW]
    obtain ⟨ihW, ihD, ihFloor, ihLh, ihLv, ihJh, ihJv⟩ :=
      ih ((List.range (D - 1)).foldl (cliff_step t d a) l) innW innD
        (by rw [innLh, hlh]) (by rw [innLv, hlv])
        (fun x hx => hmem x (List.mem_cons_of_mem _ hx))
    rw [List.foldl_cons]
    simp only [hz] at ihJh ihJv
    refine ⟨ihW, ihD, ?_, ?_, ?_, ?_, ?_⟩
    · rw [ihFloor, innFloor]
    · rw [ihLh, innLh]
    · rw [ihLv, innLv]
    · intro j
      rw [ihJh j]
      by_cases hex : ∃ x ∈ xs, ∃ y ∈ List.range (D - 1),
          j = x * (D + 1) + (y + 1) ∧ |l.z x y - l.z x (y + 1)| ≥ t
      · rw [if_pos hex]
        obtain ⟨x, hx1, hx2⟩ := hex
        rw [if_pos ⟨x, List.mem_cons_of_mem a hx1, hx2⟩]
      · rw [if_neg hex, innJh j]
        by_cases hina : ∃ y ∈ List.range (D - 1),
            j = a * (D + 1) + (y + 1) ∧ |l.z a y - l.z a (y + 1)| ≥ t
        · rw [if_pos hina, if_pos ⟨a, List.mem_cons_self a xs, hina⟩]
        · rw [if_neg hina, if_neg ?_]
          rintro ⟨x, hx1, hrest⟩
          rcases List.mem_cons.mp hx1 with hx1 | hx1
          · subst hx1
            exact hina hrest
          · exact hex ⟨x, hx1, hrest⟩
    · intro j
      rw [ihJv j]
      by_cases hex : ∃ x ∈ xs, ∃ y ∈ List.range (D - 1),
          j = y * (W + 1) + (x + 1) ∧ |l.z x y - l.z (x + 1) y| ≥ t
      · rw [if_pos hex]
        obtain ⟨x, hx1, hx2⟩ := hex
        rw [if_pos ⟨x, List.mem_cons_of_mem a hx1, hx2⟩]
      · rw [if_neg hex, innJv j]
        by_cases hina : ∃ y ∈ List.range (D - 1),
            j = y * (W + 1) + (a + 1) ∧ |l.z a y - l.z (a + 1) y| ≥ t
        · rw [if_pos hina, if_pos ⟨a, List.mem_cons_self a xs, hina⟩]
        · rw [if_neg hina, if_neg ?_]
          rintro ⟨x, hx1, hrest⟩
          rcases List.mem_cons.mp hx1 with hx1 | hx1
          · subst hx1
            exact hina hrest
          · exact hex ⟨x, hx1, hrest⟩

/-- Claim C1, amended: after `add_cliff_walls(threshold, payload)` on an
initially wall-free level, an interior edge carries a wall iff the elevation
difference across it reaches the threshold AND the base tile of the edge lies
strictly inside both the width and the depth bound minus one: the loops walk
x in 0..width-1 and y in 0..depth-1, so interior +y edges in the last column
and interior +x edges in the last row are never walled. -/
theorem claim_C1_amended (lvl : Level FT WT) (t : ℚ) (d : WT)
    (hh : lvl.walls_h = List.replicate ((lvl.depth + 1) * lvl.width) none)
    (hv : lvl.walls_v = List.replicate ((lvl.width + 1) * lvl.depth) none)
    (x y : Nat) :
    (x < lvl.width → y + 1 < lvl.depth →
      (lvl.add_cliff_walls t d).wall x y .Top =
        if x + 1 < lvl.width ∧ |lvl.z x y - lvl.z x (y + 1)| ≥ t then some d else none) ∧
    (x + 1 < lvl.width → y < lvl.depth →
      (lvl.add_cliff_walls t d).wall x y .Right =
        if y + 1 < lvl.depth ∧ |lvl.z x y - lvl.z (x + 1) y| ≥ t then some d else none) := by
  obtain ⟨hoW, hoD, hoFloor, hoLh, hoLv, hoJh, hoJv⟩ :=
    cliff_outer_fold t d lvl.width lvl.depth (List.range (lvl.width - 1)) lvl rfl rfl
      (by rw [hh, List.length_replicate]) (by rw [hv, List.length_replicate])
      (fun a haa => by have := List.mem_range.mp haa; omega)
  have hunfold : lvl.add_cliff_walls t d
      = (List.range (lvl.width - 1)).foldl
          (fun lx x => (List.range (lvl.depth - 1)).foldl (cliff_step t d x) lx) lvl := rfl
  constructor
  · intro hx hy
    show (lvl.add_cliff_walls t d).walls_h.getD
      (wallIndex (lvl.add_cliff_walls t d).width (lvl.add_cliff_walls t d).depth x y .Top)
      none = _
    rw [hunfold, hoW, hoD, List.getD_eq_getElem?_getD, hoJh]
    by_cases hcond : x + 1 < lvl.width ∧ |lvl.z x y - lvl.z x (y + 1)| ≥ t
    · rw [if_pos ⟨x, List.mem_range.mpr (by omega), y, List.mem_range.mpr (by omega),
          by simp only [wallIndex]; omega, hcond.2⟩,
        if_pos hcond]
      rfl
    · rw [if_neg ?_, if_neg hcond]
      · rw [← List.getD_eq_getElem?_getD, hh]
        exact getD_replicate_none
      · rintro ⟨a, ha1, b, hb1, hj, hc⟩
        have ha2 := List.mem_range.mp ha1
        have hb2 := List.mem_range.mp hb1
        simp only [wallIndex] at hj
        obtain ⟨hax, hby⟩ := mul_add_inj (m := lvl.depth + 1)
          (by omega : b + 1 < lvl.depth + 1) (by omega : y + 1 < lvl.depth + 1)
          (by omega : a * (lvl.depth + 1) + (b + 1) = x * (lvl.depth + 1) + (y + 1))
        apply hcond
        constructor
        · omega
        · have hax' : a = x := hax
          have hby' : b = y := by omega
          rw [← hax', ← hby']
          exact hc
  · intro hx hy
    show (lvl.add_cliff_walls t d).walls_v.getD
      (wallIndex (lvl.add_cliff_walls t d).width (lvl.add_cliff_walls t d).depth x y .Right)
      none = _
    rw [hunfold, hoW, hoD, List.getD_eq_getElem?_getD, hoJv]
    by_cases hcond : y + 1 < lvl.depth ∧ |lvl.z x y - lvl.z (x + 1) y| ≥ t
    · rw [if_pos ⟨x, List.mem_range.mpr (by omega), y, List.mem_range.mpr (by omega),
          by simp only [wallIndex]; omega, hcond.2⟩,
        if_pos hcond]
      rfl
    · rw [if_neg ?_, if_neg hcond]
      · rw [← List.getD_eq_getElem?_getD, hv]
        exact getD_replicate_none
      · rintro ⟨a, ha1, b, hb1, hj, hc⟩
        have ha2 := List.mem_range.mp ha1
        have hb2 := List.mem_range.mp hb1
        simp only [wallIndex] at hj
        obtain ⟨hby, hax⟩ := mul_add_inj (m := lvl.width + 1)
          (by omega : a + 1 < lvl.width + 1) (by omega : x + 1 < lvl.width + 1)
          (by omega : b * (lvl.width + 1) + (a + 1) = y * (lvl.width + 1) + (x + 1))
        apply hcond
        constructor
        · omega
        · have hax' : a = x := by omega
          have hby' : b = y := hby
          rw [← hax', ← hby']
          exact hc

/-- Counterexample to claim C1 as stated: on the wall-free 2 by 2 level with
elevation 10 at tile (1, 1) and threshold 1, the interior edge between the
in-bounds tiles (1, 0) and (1, 1) has elevation difference 10 which reaches
the threshold, yet `add_cliff_walls` leaves it wall-free (its base tile sits
in the last column, which the loops never visit). -/
theorem claim_C1_cex :
    1 < cliffLvl.width ∧ 0 + 1 < cliffLvl.depth ∧
    |cliffLvl.z 1 0 - cliffLvl.z 1 1| ≥ 1 ∧
    (cliffLvl.add_cliff_walls 1 ()).wall 1 0 .Top = none := by
  refine ⟨by decide, by decide, ?_, ?_⟩
  · have h1 : cliffLvl.z 1 0 = 0 := rfl
    have h2 : cliffLvl.z 1 1 = 10 := rfl
    rw [h1, h2]
    norm_num
  · obtain ⟨hoW, hoD, _, _, _, hoJh, _⟩ :=
      cliff_outer_fold 1 () 2 2 (List.range (2 - 1)) cliffLvl rfl rfl (by decide) (by decide)
        (fun a haa => by have := List.mem_range.mp haa; omega)
    show (cliffLvl.add_cliff_walls 1 ()).walls_h.getD
      (wallIndex (cliffLvl.add_cliff_walls 1 ()).width (cliffLvl.add_cliff_walls 1 ()).depth
        1 0 .Top) none = none
    have hunfold : cliffLvl.add_cliff_walls 1 ()
        = (List.range (2 - 1)).foldl
            (fun lx x => (List.range (2 - 1)).foldl (cliff_step 1 () x) lx) cliffLvl := rfl
    rw [hunfold, hoW, hoD, List.getD_eq_getElem?_getD, hoJh]
    rw [if_neg ?_]
    · decide
    · rintro ⟨a, ha1, b, hb1, hj, _⟩
      have ha2 := List.mem_range.mp ha1
      have hb2 := List.mem_range.mp hb1
      simp only [wallIndex] at hj
      omega

/-- Witness for the amended claim C1 at the concrete cliff level. -/
theorem claim_C1_witness :
    ((cliffLvl.add_cliff_walls 1 ()).wall 0 0 .Top =
      if 0 + 1 < cliffLvl.width ∧ |cliffLvl.z 0 0 - cliffLvl.z 0 1| ≥ 1 then some () else none) ∧
    ((cliffLvl.add_cliff_walls 1 ()).wall 0 0 .Right =
      if 0 + 1 < cliffLvl.depth ∧ |cliffLvl.z 0 0 - cliffLvl.z 1 0| ≥ 1 then some () else none) := by
  have h := claim_C1_amended cliffLvl 1 () rfl rfl 0 0
  exact ⟨h.1 (by decide) (by decide), h.2 (by decide) (by decide)⟩

/-! Shape and center invariants of the visibility matrix. -/

theorem markCell_inv (radius : Nat) (m : List (List Bool)) (ij : Int × Int)
    (hlen : m.length = 2 * radius + 1)
    (hrows : ∀ row ∈ m, row.length = 2 * radius + 1)
    (hcenter : (m.getD radius []).getD radius false = true) :
    (markCell radius m ij).length = 2 * radius + 1 ∧
    (∀ row ∈ markCell radius m ij, row.length = 2 * radius + 1) ∧
    ((markCell radius m ij).getD radius []).getD radius false = true := by
  rw [markCell]
  split_ifs with hguard
  · exact ⟨hlen, hrows, hcenter⟩
  have hi : ij.1.toNat < m.length := by omega
  have hrow : m.getD ij.1.toNat [] = m[ij.1.toNat] := by
    rw [List.getD_eq_getElem?_getD, List.getElem?_eq_getElem hi]
    rfl
  have hrowlen : (m.getD ij.1.toNat []).length = 2 * radius + 1 := by
    rw [hrow]
    exact hrows _ (List.getElem_mem hi)
  refine ⟨by simp [hlen], ?_, ?_⟩
  · intro row hrowmem
    rcases List.mem_or_eq_of_mem_set hrowmem with h | h
    · exact hrows row h
    · rw [h, List.length_set]
      exact hrowlen
  · by_cases hir : ij.1.toNat = radius
    · have hmr : radius < m.length := by omega
      have hrl : (m.getD radius []).length = 2 * radius + 1 := by
        rw [hir] at hrowlen
        exact hrowlen
      rw [hir, getD_set_self _ _ _ _ hmr]
      by_cases hjr : ij.2.toNat = radius
      · rw [hjr, getD_set_self _ _ _ _ (by omega)]
      · rw [getD_set_ne _ _ _ _ _ hjr]
        exact hcenter
    · rw [getD_set_ne _ _ _ _ _ hir]
      exact hcenter

theorem visibleFromMarked_inv (radius : Nat) (marks : List (Int × Int)) :
    (visibleFromMarked radius marks).length = 2 * radius + 1 ∧
    (∀ row ∈ visibleFromMarked radius marks, row.length = 2 * radius + 1) ∧
    ((visibleFromMarked radius marks).getD radius []).getD radius false = true := by
  have hinit : (initVisibility radius).length = 2 * radius + 1 ∧
      (∀ row ∈ initVisibility radius, row.length = 2 * radius + 1) ∧
      ((initVisibility radius).getD radius []).getD radius false = true := by
    refine ⟨by simp [initVisibility], ?_, ?_⟩
    · intro row hrow
      rw [initVisibility] at hrow
      rcases List.mem_or_eq_of_mem_set hrow with h | h
      · rw [List.eq_of_mem_replicate h]
        simp
      · rw [h]
        simp
    · rw [initVisibility, getD_set_self _ _ _ _ (by simp; omega),
        getD_set_self _ _ _ _ (by simp; omega)]
  suffices h : ∀ m : List (List Bool), m.length = 2 * radius + 1 →
      (∀ row ∈ m, row.length = 2 * radius + 1) →
      (m.getD radius []).getD radius false = true →
      (marks.foldl (markCell radius) m).length = 2 * radius + 1 ∧
      (∀ row ∈ marks.foldl (markCell radius) m, row.length = 2 * radius + 1) ∧
      ((marks.foldl (markCell radius) m).getD radius []).getD radius false = true by
    exact h (initVisibility radius) hinit.1 hinit.2.1 hinit.2.2
  induction marks with
  | nil =>
    intro m h1 h2 h3
    exact ⟨h1, h2, h3⟩
  | cons a marks ih =>
    intro m h1 h2 h3
    rw [List.foldl_cons]
    obtain ⟨g1, g2, g3⟩ := markCell_inv radius m a h1 h2 h3
    exact ih (markCell radius m a) g1 g2 g3

/-- Claim C7: for every radius and every ray trajectory, the `visible_from`
matrix has exactly 2*radius+1 rows, each of length 2*radius+1, and its center
cell at index [radius][radius] is true. -/
theorem claim_C7 (radius : Nat) (marks : List (Int × Int)) :
    (visibleFromMarked radius marks).length = 2 * radius + 1 ∧
    (∀ row ∈ visibleFromMarked radius marks, row.length = 2 * radius + 1) ∧
    ((visibleFromMarked radius marks).getD radius []).getD radius false = true :=
  visibleFromMarked_inv radius marks

/-- Witness for claim C7 at radius 1 with a one-mark trajectory. -/
theorem claim_C7_witness :
    (visibleFromMarked 1 [((2 : Int), (2 : Int))]).length = 2 * 1 + 1 ∧
    ((visibleFromMarked 1 [((2 : Int), (2 : Int))]).getD 0 []).length = 2 * 1 + 1 ∧
    ((visibleFromMarked 1 [((2 : Int), (2 : Int))]).getD 1 []).getD 1 false = true := by
  have h := claim_C7 1 [((2 : Int), (2 : Int))]
  exact ⟨h.1, h.2.1 _ (by decide), h.2.2⟩

/-- Claim C5 fails on the code: on a 2 by 5 level with observer (0, 0) and
radius 1, the `visibility` closure queried at (0, 3) indexes the visibility
matrix out of range (the guard keeps y up to depth - 1 = 4 because the upper
bound condition erroneously compares against width - 1), which panics in the
source, instead of returning false for this outside-the-window coordinate.
This holds for every possible ray-march trajectory. -/
theorem claim_C5 (marks : List (Int × Int)) :
    visibility_model (Level.new 2 5 0 : Level Unit Unit) (0, 0) 1 marks 0 3 = none := by
  obtain ⟨hlen, hrows, _⟩ := visibleFromMarked_inv 1 marks
  have h1 : 1 < (visibleFromMarked 1 marks).length := by
    rw [hlen]
    norm_num
  have h2 : (visibleFromMarked 1 marks)[1]? = some ((visibleFromMarked 1 marks)[1]) :=
    List.getElem?_eq_getElem h1
  have h3 : ((visibleFromMarked 1 marks)[1]).length = 2 * 1 + 1 :=
    hrows _ (List.getElem_mem h1)
  show visibilityQuery 2 5 (visibleFromMarked 1 marks) (0, 0) 1 0 3 = none
  rw [visibilityQuery]
  norm_num
  rw [h2]
  show ((visibleFromMarked 1 marks)[1])[3 + 1 - 0]? = none
  apply List.getElem?_eq_none
  omega

end Level

end Isometric
